import Mathlib

/-!
# Verification of the AskBeeves sync-and-cache engine

Shallow embedding of the bloom-filter module (`bloom.ts`), the storage
helpers (`storage.ts`) and the sync orchestrator (`background.ts`) of the
AskBeeves browser extension, together with proofs settling the frozen
claims about the natural-language specification.

Modelling conventions:
* JavaScript strings are modelled as Lean `String`; `charCodeAt` is
  modelled by expanding each character into its UTF-16 code units.
* JavaScript 32-bit integer operations (`Math.imul`, `<<`, `>>>`, `^`,
  `|`) are modelled on `Nat` with explicit `% 2^32` where JS truncates
  (`ToInt32`/`ToUint32` coercions); sign does not affect the low 32 bits.
* The base64 codec (`uint8ArrayToBase64` / `base64ToUint8Array`) is a
  pair of inverse bijections between byte arrays and strings used only
  at the storage boundary; the model keeps the decoded byte list in
  `BloomFilterData.bits` and accounts for the base64 length explicitly
  in the serialized-size model.
* `Uint8Array` writes out of range are silently ignored and reads out of
  range yield `undefined` (so `undefined & m` is `0`); `List.set` is a
  no-op out of range and reads use `List.getD _ _ 0`, matching this.
-/

namespace AskBeeves

/-- `2^32`, the modulus of JavaScript 32-bit integer coercions. -/
def U32 : Nat := 4294967296

/-- `Math.imul(a, b)`: the low 32 bits of the product (the sign of the JS
result does not affect any later `mod 2^32` arithmetic). -/
def imul (a b : Nat) : Nat := (a * b) % U32

/-- `(x << n) | (x >>> (32 - n))` on a 32-bit value: rotate left by `n`. -/
def rotl32 (x n : Nat) : Nat := ((x <<< n) % U32) ||| (x >>> (32 - n))

/-- UTF-16 code units of a character, as returned by `charCodeAt`. -/
def utf16Units (c : Char) : List Nat :=
  let n := c.toNat
  if n < 65536 then [n]
  else [55296 + (n - 65536) / 1024, 56320 + (n - 65536) % 1024]

/-- The sequence of `str.charCodeAt(i)` values of a JS string. -/
def jsCharCodes (s : String) : List Nat :=
  (s.data.map utf16Units).flatten

/-- One iteration of the `murmurHash3` character loop from `bloom.ts`:
`k1 = imul(c, c1); k1 = rotl(k1, 15); k1 = imul(k1, c2); h1 ^= k1;
h1 = rotl(h1, 13); h1 = imul(h1, 5) + 0xe6546b64` (the addition is
truncated by the next 32-bit coercion, hence the `% U32`). -/
def murmurStep (h1 c : Nat) : Nat :=
  let k1 := imul c 3432918353
  let k1 := rotl32 k1 15
  let k1 := imul k1 461845907
  let h1 := h1 ^^^ k1
  let h1 := rotl32 h1 13
  (imul h1 5 + 3864292196) % U32

/-- `murmurHash3(str, seed)` from `bloom.ts`: the character loop followed
by the finalization mix; returns a 32-bit unsigned hash. -/
def murmurHash3 (str : String) (seed : Nat) : Nat :=
  let h1 := (jsCharCodes str).foldl murmurStep (seed % U32)
  let h1 := h1 ^^^ ((jsCharCodes str).length % U32)
  let h1 := h1 ^^^ (h1 >>> 16)
  let h1 := imul h1 2246822507
  let h1 := h1 ^^^ (h1 >>> 13)
  let h1 := imul h1 3266489909
  h1 ^^^ (h1 >>> 16)

/-- `getHashValues(item, numHashes, size)` from `bloom.ts`: double hashing
with a quadratic term, `combined = h1 + i*h2 + i*i`, reduced by the JS
"unsigned modulo" idiom `((combined % size) + size) % size`.  All
intermediate values stay far below `2^53`, so JS double arithmetic is
exact and `Nat` arithmetic is faithful. -/
def getHashValues (item : String) (numHashes size : Nat) : List Nat :=
  let h1 := murmurHash3 item 0
  let h2 := murmurHash3 item 2654435769
  (List.range numHashes).map (fun i =>
    let combined := h1 + i * h2 + i * i
    ((combined % size) + size) % size)

/-- `BloomFilterData` from `bloom.ts`; `bits` holds the decoded bytes of
the base64-encoded bit array. -/
structure BloomFilterData where
  bits : List Nat
  size : Nat
  numHashes : Nat
  count : Nat
deriving DecidableEq, Repr

/-- Default `bitsPerElement` from `bloom.ts`. -/
def DEFAULT_BITS_PER_ELEMENT : Nat := 15

/-- Default `numHashes` from `bloom.ts`. -/
def DEFAULT_NUM_HASHES : Nat := 10

/-- `createBloomFilter` from `bloom.ts`.  `Math.ceil(expectedElements *
bitsPerElement)` on naturals is the product itself; `Math.ceil(size / 8)`
is `(size + 7) / 8`. -/
def createBloomFilter (expectedElements bitsPerElement numHashes : Nat) :
    BloomFilterData :=
  let size := max 64 (expectedElements * bitsPerElement)
  let byteSize := (size + 7) / 8
  { bits := List.replicate byteSize 0
    size := size
    numHashes := numHashes
    count := 0 }

/-- One iteration of the bit-setting loop of `bloomFilterAdd`:
`bytes[hash >> 3] |= 1 << (hash & 7)` (out-of-range writes on a
`Uint8Array` are ignored, as is `List.set` out of range). -/
def setBloomBit (bytes : List Nat) (hash : Nat) : List Nat :=
  bytes.set (hash / 8) ((bytes.getD (hash / 8) 0) ||| (1 <<< (hash % 8)))

/-- The bit test performed per position by `bloomFilterMightContain`:
`(bytes[hash >> 3] & (1 << (hash & 7))) !== 0` (an out-of-range read
gives `undefined`, and `undefined & m` is `0`, matching `getD _ _ 0`). -/
def testBloomBit (bytes : List Nat) (hash : Nat) : Bool :=
  (bytes.getD (hash / 8) 0) &&& (1 <<< (hash % 8)) != 0

/-- `bloomFilterAdd(filter, item)` from `bloom.ts` (the in-place mutation
becomes a returned value). -/
def bloomFilterAdd (filter : BloomFilterData) (item : String) :
    BloomFilterData :=
  let hashes := getHashValues item filter.numHashes filter.size
  { filter with
    bits := hashes.foldl setBloomBit filter.bits
    count := filter.count + 1 }

/-- `bloomFilterMightContain(filter, item)` from `bloom.ts`: false iff
some derived position has an unset bit. -/
def bloomFilterMightContain (filter : BloomFilterData) (item : String) :
    Bool :=
  let hashes := getHashValues item filter.numHashes filter.size
  hashes.all (testBloomBit filter.bits)

/-- `bloomFilterFromArray(items, bitsPerElement, numHashes)` from
`bloom.ts`: create a filter sized for `items.length` and add every item. -/
def bloomFilterFromArray (items : List String)
    (bitsPerElement numHashes : Nat) : BloomFilterData :=
  items.foldl bloomFilterAdd
    (createBloomFilter items.length bitsPerElement numHashes)

/-- Well-formedness established by `createBloomFilter` and preserved by
`bloomFilterAdd`: the bit vector covers `size` bits. -/
def bloomWF (f : BloomFilterData) : Prop :=
  0 < f.size ∧ f.size ≤ 8 * f.bits.length

/-! ### Data model (`types.ts`) -/

/-- `FollowedUser` from `types.ts`; optional fields are `Option`. -/
structure FollowedUser where
  did : String
  handle : String
  displayName : Option String
  avatar : Option String
deriving DecidableEq, Repr

/-- `UserBlockBloomCache` from `types.ts`. -/
structure UserBlockBloomCache where
  did : String
  handle : String
  displayName : Option String
  avatar : Option String
  pdsUrl : Option String
  bloomFilter : BloomFilterData
  blockCount : Nat
  lastSynced : Nat
deriving DecidableEq, Repr

/-- `BlockCacheData` from `types.ts`.  The JS `Record<string,
UserBlockBloomCache>` is modelled as an insertion-ordered association
list with (in well-formed states) unique keys, matching JS object
property order. -/
structure BlockCacheData where
  followedUsers : List FollowedUser
  userBlockCaches : List (String × UserBlockBloomCache)
  lastFullSync : Nat
  currentUserDid : String
deriving DecidableEq, Repr

/-- `SyncStatus` from `types.ts`. -/
structure SyncStatus where
  totalFollows : Nat
  syncedFollows : Nat
  lastSync : Nat
  isRunning : Bool
  lastUpdated : Nat
  errors : List String
deriving DecidableEq, Repr

/-- `BskySession` from `types.ts`. -/
structure BskySession where
  accessJwt : String
  refreshJwt : Option String
  did : String
  handle : String
  pdsUrl : String
deriving DecidableEq, Repr

/-- `record[k]` on a JS object: the value at the (unique) key `k`. -/
def recordGet {α : Type} (m : List (String × α)) (k : String) : Option α :=
  (m.find? (fun p => p.1 == k)).map (fun p => p.2)

/-- `record[k] = v` on a JS object: update in place if the key exists
(preserving property order), else append. -/
def recordSet {α : Type} (m : List (String × α)) (k : String) (v : α) :
    List (String × α) :=
  if m.any (fun p => p.1 == k) then
    m.map (fun p => if p.1 == k then (k, v) else p)
  else m ++ [(k, v)]

/-- `delete record[k]` on a JS object. -/
def recordDelete {α : Type} (m : List (String × α)) (k : String) :
    List (String × α) :=
  m.filter (fun p => p.1 != k)

/-! ### Serialized-size model (`estimateObjectSize` from `background.ts`)

`estimateObjectSize(obj) = new Blob([JSON.stringify(obj)]).size`, i.e. the
UTF-8 byte length of the JSON text.  `JSON.stringify` is compositional, so
the model computes the byte length structurally: an object is
`{"k":v,...}` with `undefined`-valued (here: `none`) properties omitted,
key order being property creation order from the source; an array is
`[v,...]`; a string is quoted with the standard JSON escapes; a natural
number prints in decimal.  `BloomFilterData.bits` is stored as the base64
string of the byte array, of length `4 * ceil(len/3)` ASCII characters. -/

/-- UTF-8 byte contribution of one character inside a JSON string
literal: `"` and `\` are escaped to two bytes, the short control escapes
(`\b \t \n \f \r`) take two bytes, other control characters take six
(`\u00XX`), and other characters take their UTF-8 length. -/
def jsonCharBytes (ch : Char) : Nat :=
  let c := ch.toNat
  if c = 34 || c = 92 then 2
  else if c = 8 || c = 9 || c = 10 || c = 12 || c = 13 then 2
  else if c < 32 then 6
  else if c < 128 then 1
  else if c < 2048 then 2
  else if c < 65536 then 3
  else 4

/-- Byte length of the JSON string literal for `s`, quotes included. -/
def jsonStrSize (s : String) : Nat := 2 + (s.data.map jsonCharBytes).sum

/-- Number of decimal digits of `n` (its JSON length). -/
def natDigits (n : Nat) : Nat := (Nat.toDigits 10 n).length

/-- Byte length of one object property: `"key":value`. -/
def jsonField (key : String) (valSize : Nat) : Nat :=
  jsonStrSize key + 1 + valSize

/-- Byte length of a JSON object given its (present) property lengths:
braces, the properties, and a comma between consecutive properties. -/
def jsonObjSize (fields : List (Option Nat)) : Nat :=
  let ps := fields.filterMap id
  2 + ps.sum + (ps.length - 1)

/-- Byte length of a JSON array given its element lengths. -/
def jsonArrSize (items : List Nat) : Nat :=
  2 + items.sum + (items.length - 1)

/-- Length of the base64 encoding (`btoa`) of `numBytes` bytes. -/
def base64Length (numBytes : Nat) : Nat := 4 * ((numBytes + 2) / 3)

/-- Serialized size of a `FollowedUser` (property order from
`api.ts` `getFollows`: did, handle, displayName, avatar). -/
def jsonFollowedUserSize (u : FollowedUser) : Nat :=
  jsonObjSize [some (jsonField "did" (jsonStrSize u.did)),
    some (jsonField "handle" (jsonStrSize u.handle)),
    u.displayName.map (fun s => jsonField "displayName" (jsonStrSize s)),
    u.avatar.map (fun s => jsonField "avatar" (jsonStrSize s))]

/-- Serialized size of a `BloomFilterData` (property order from
`createBloomFilter`: bits, size, numHashes, count). -/
def jsonBloomFilterSize (f : BloomFilterData) : Nat :=
  jsonObjSize [some (jsonField "bits" (2 + base64Length f.bits.length)),
    some (jsonField "size" (natDigits f.size)),
    some (jsonField "numHashes" (natDigits f.numHashes)),
    some (jsonField "count" (natDigits f.count))]

/-- `estimateObjectSize(entry)` for a single `UserBlockBloomCache`
(property order from the literal in `performFullSync`). -/
def estimateEntrySize (e : UserBlockBloomCache) : Nat :=
  jsonObjSize [some (jsonField "did" (jsonStrSize e.did)),
    some (jsonField "handle" (jsonStrSize e.handle)),
    e.displayName.map (fun s => jsonField "displayName" (jsonStrSize s)),
    e.avatar.map (fun s => jsonField "avatar" (jsonStrSize s)),
    e.pdsUrl.map (fun s => jsonField "pdsUrl" (jsonStrSize s)),
    some (jsonField "bloomFilter" (jsonBloomFilterSize e.bloomFilter)),
    some (jsonField "blockCount" (natDigits e.blockCount)),
    some (jsonField "lastSynced" (natDigits e.lastSynced))]

/-- Size of one `"did":entry` property of the `userBlockCaches` object. -/
def entryPairSize (p : String × UserBlockBloomCache) : Nat :=
  jsonField p.1 (estimateEntrySize p.2)

/-- Serialized size of the `userBlockCaches` object. -/
def entriesObjSize (l : List (String × UserBlockBloomCache)) : Nat :=
  2 + (l.map entryPairSize).sum + (l.length - 1)

/-- `estimateObjectSize(cache)` for the whole `BlockCacheData` (property
order from `createEmptyCache`). -/
def estimateObjectSize (c : BlockCacheData) : Nat :=
  jsonObjSize [some (jsonField "followedUsers"
      (jsonArrSize (c.followedUsers.map jsonFollowedUserSize))),
    some (jsonField "userBlockCaches" (entriesObjSize c.userBlockCaches)),
    some (jsonField "lastFullSync" (natDigits c.lastFullSync)),
    some (jsonField "currentUserDid" (jsonStrSize c.currentUserDid))]

/-! ### Quota guard (`pruneCache` from `background.ts`) -/

/-- `MAX_CACHE_SIZE_BYTES = 8 * 1024 * 1024` from `background.ts`. -/
def MAX_CACHE_SIZE_BYTES : Nat := 8 * 1024 * 1024

/-- The comparator `(a, b) => a.lastSynced - b.lastSynced`: ascending
`lastSynced`. -/
def byAge : (String × Nat) → (String × Nat) → Prop := fun a b => a.2 ≤ b.2

instance : DecidableRel byAge := fun a b => Nat.decLe a.2 b.2

instance : IsTotal (String × Nat) byAge := ⟨fun a b => Nat.le_total a.2 b.2⟩

instance : IsTrans (String × Nat) byAge := ⟨fun _ _ _ => Nat.le_trans⟩

/-- `Object.entries(cache.userBlockCaches).map(([did, data]) => (did,
data.lastSynced)).sort(byAge)`.  `Array.prototype.sort` is a stable sort
and the result of a stable sort is unique, so the model may use any
stable sort; insertion sort is used because it is structurally
recursive. -/
def usersByAge (c : BlockCacheData) : List (String × Nat) :=
  List.insertionSort byAge
    (c.userBlockCaches.map (fun p => (p.1, p.2.lastSynced)))

/-- The removal loop of `pruneCache`.  `currentSize` is a JS number that
can go negative, hence `Int`.  The second component records the `did`s
deleted, in order (the loop counts them in `prunedCount`).  When a `did`
is absent (impossible with unique keys), `JSON.stringify(undefined)` is
`undefined` and `new Blob([undefined])` stringifies it to `"undefined"`,
9 bytes. -/
def pruneLoop : BlockCacheData → List (String × Nat) → Int →
    BlockCacheData × List (String × Nat)
  | cache, [], _ => (cache, [])
  | cache, (did, ls) :: rest, currentSize =>
    if currentSize ≤ (MAX_CACHE_SIZE_BYTES : Int) then (cache, [])
    else
      let removedSize : Int :=
        match recordGet cache.userBlockCaches did with
        | some e => (estimateEntrySize e : Int)
        | none => 9
      let cache' := { cache with
        userBlockCaches := recordDelete cache.userBlockCaches did }
      let res := pruneLoop cache' rest (currentSize - removedSize)
      (res.1, (did, ls) :: res.2)

/-- `pruneCache(cache)` from `background.ts` (in-place mutation becomes a
returned cache). -/
def pruneCache (c : BlockCacheData) : BlockCacheData :=
  (pruneLoop c (usersByAge c) (estimateObjectSize c : Int)).1

/-- The sequence of `(did, lastSynced)` pairs deleted by `pruneCache`, in
deletion order. -/
def pruneCacheRemoved (c : BlockCacheData) : List (String × Nat) :=
  (pruneLoop c (usersByAge c) (estimateObjectSize c : Int)).2

/-! ### Storage helpers (`storage.ts`) and the sync orchestrator
(`background.ts`)

Stateful `chrome.storage.local` access becomes explicit state passing on
`Storage`; the network and the fallible `chrome.storage.local.set` become
an explicit environment `Env`.  All `Date.now()` calls within one pass
are modelled by the single `Env.now` (none of the verified properties
depends on the clock advancing during a pass).  A thrown JS exception is
modelled by its message string (`error instanceof Error ? error.message :
...`), carried in the `Option String`/`Except String` error components.
Within a batch the JS code runs the per-account tasks concurrently on the
single-threaded event loop; the model fixes the completion order to array
order (entry writes go to distinct keys and the verified properties are
insensitive to the interleaving of the status writes). -/

/-- The persistent `chrome.storage.local` contents used by the engine. -/
structure Storage where
  blockCache : Option BlockCacheData
  syncStatus : Option SyncStatus
  auth : Option BskySession
deriving DecidableEq, Repr

/-- The default status returned by `getSyncStatus` when none is stored. -/
def defaultSyncStatus : SyncStatus :=
  { totalFollows := 0, syncedFollows := 0, lastSync := 0,
    isRunning := false, lastUpdated := 0, errors := [] }

/-- `getSyncStatus()` from `storage.ts`. -/
def getSyncStatus (st : Storage) : SyncStatus :=
  st.syncStatus.getD defaultSyncStatus

/-- A `Partial<SyncStatus>` argument of `updateSyncStatus` (`lastUpdated`
is never passed by callers; it is always overwritten). -/
structure SyncStatusPatch where
  totalFollows : Option Nat
  syncedFollows : Option Nat
  lastSync : Option Nat
  isRunning : Option Bool
  errors : Option (List String)
deriving DecidableEq, Repr

/-- `{ ...current, ...status, lastUpdated: Date.now() }`. -/
def applyPatch (s : SyncStatus) (p : SyncStatusPatch) (now : Nat) :
    SyncStatus :=
  { totalFollows := p.totalFollows.getD s.totalFollows
    syncedFollows := p.syncedFollows.getD s.syncedFollows
    lastSync := p.lastSync.getD s.lastSync
    isRunning := p.isRunning.getD s.isRunning
    lastUpdated := now
    errors := p.errors.getD s.errors }

/-- `updateSyncStatus(status)` from `storage.ts`: read-modify-write of the
stored status, always refreshing `lastUpdated` (the heartbeat). -/
def updateSyncStatus (st : Storage) (now : Nat) (p : SyncStatusPatch) :
    Storage :=
  { st with syncStatus := some (applyPatch (getSyncStatus st) p now) }

/-- `createEmptyCache(currentUserDid)` from `storage.ts`. -/
def createEmptyCache (currentUserDid : String) : BlockCacheData :=
  { followedUsers := [], userBlockCaches := [], lastFullSync := 0,
    currentUserDid := currentUserDid }

/-- `String.prototype.includes`: `sub` occurs contiguously in `s`. -/
def strIncludes (s sub : String) : Bool :=
  (List.range (s.data.length + 1)).any
    (fun i => sub.data.isPrefixOf (s.data.drop i))

/-- The quota-error test of `safeSaveBlockCache`:
`errorMsg.includes('QUOTA_BYTES') || errorMsg.includes('quota')`. -/
def isQuotaError (msg : String) : Bool :=
  strIncludes msg "QUOTA_BYTES" || strIncludes msg "quota"

/-- Result of one `getUserBlocks` call: an array, a non-array value
(coerced to `[]` by the `Array.isArray` guard), or a rejection carrying
the error message. -/
inductive BlocksFetch where
  | arr (blocks : List String)
  | nonArr
  | err (msg : String)
deriving DecidableEq, Repr

/-- The environment of one sync pass: the clock, the outcome of
`chrome.storage.local.set` for the block cache (`none` = success, `some
msg` = throws `msg`), the result of `getAllFollows`, and the per-`did`
result of `getUserBlocks`. -/
structure Env where
  now : Nat
  saveOutcome : BlockCacheData → Option String
  followsResult : Except String (List FollowedUser)
  blocksResult : String → BlocksFetch

/-- `STALE_LOCK_TIMEOUT_MS = 5 * 60 * 1000` from `background.ts`. -/
def STALE_LOCK_TIMEOUT_MS : Nat := 5 * 60 * 1000

/-- `RATE_LIMIT_CONCURRENT = 5` from `background.ts`. -/
def RATE_LIMIT_CONCURRENT : Nat := 5

/-- `SAVE_INTERVAL = 10` from `performFullSync`. -/
def SAVE_INTERVAL : Nat := 10

/-- The proactive-prune threshold `MAX_CACHE_SIZE_BYTES * 0.9`: the IEEE
double `7549747.2000000001862…`, which an integer size exceeds iff it is
at least `7549748`. -/
def PRUNE_PROACTIVE_THRESHOLD : Nat := 7549747

/-- `safeSaveBlockCache(cache)` from `background.ts`: save; on a quota
error prune and retry exactly once, returning `false` if the retry also
fails; rethrow any non-quota error.  Returns the success flag, the
storage after any successful save, and the (possibly pruned) in-memory
cache. -/
def safeSaveBlockCache (env : Env) (st : Storage) (cache : BlockCacheData) :
    Except String (Bool × Storage × BlockCacheData) :=
  match env.saveOutcome cache with
  | none => .ok (true, { st with blockCache := some cache }, cache)
  | some msg =>
    if isQuotaError msg then
      let cache' := pruneCache cache
      match env.saveOutcome cache' with
      | none => .ok (true, { st with blockCache := some cache' }, cache')
      | some _ => .ok (false, st, cache')
    else .error msg

/-- Fuel-indexed body of `chunk` (`api.ts`): slices of `size` consecutive
elements.  The fuel is the list length, consumed at least one element per
step, so the definition is structural and kernel-reducible; callers
always pass `size = 5` (for `size = 0` the JS loop would not terminate). -/
def chunkListGo {α : Type} : Nat → List α → Nat → List (List α)
  | 0, _, _ => []
  | _ + 1, [], _ => []
  | fuel + 1, x :: xs, size =>
    (x :: xs.take (size - 1)) :: chunkListGo fuel (xs.drop (size - 1)) size

/-- `chunk(array, size)` from `api.ts`. -/
def chunkList {α : Type} (l : List α) (size : Nat) : List (List α) :=
  chunkListGo l.length l size

/-- The in-memory state threaded through the batch loop of
`performFullSync`: storage, the cache being (re)built, `syncedCount` and
the `errors` array. -/
structure PassState where
  st : Storage
  cache : BlockCacheData
  syncedCount : Nat
  errors : List String
deriving DecidableEq, Repr

/-- One per-account task of the batch loop of `performFullSync`: fetch
the block list; on success store a bloom-filter entry when the list is
non-empty, increment `syncedCount` and write the status (heartbeat); on
failure push a descriptive error and continue. -/
def processUser (env : Env) (total : Nat) (ps : PassState)
    (user : FollowedUser) : PassState :=
  match env.blocksResult user.did with
  | .err e =>
    { ps with errors := ps.errors ++ ["Failed to sync " ++ user.handle ++ ": " ++ e] }
  | fetched =>
    let blocks := match fetched with
      | .arr l => l
      | _ => []
    let cache :=
      if 0 < blocks.length then
        let entry : UserBlockBloomCache :=
          { did := user.did
            handle := user.handle
            displayName := user.displayName
            avatar := user.avatar
            pdsUrl := none
            bloomFilter := bloomFilterFromArray blocks
              DEFAULT_BITS_PER_ELEMENT DEFAULT_NUM_HASHES
            blockCount := blocks.length
            lastSynced := env.now }
        let ubc := recordSet ps.cache.userBlockCaches user.did entry
        { ps.cache with userBlockCaches := ubc }
      else ps.cache
    let syncedCount := ps.syncedCount + 1
    let st := updateSyncStatus ps.st env.now
      { totalFollows := some total, syncedFollows := some syncedCount,
        lastSync := none, isRunning := none, errors := none }
    { st := st, cache := cache, syncedCount := syncedCount,
      errors := ps.errors }

/-- The batch loop of `performFullSync`: process each chunk, then
checkpoint via `safeSaveBlockCache` after every `SAVE_INTERVAL`-th chunk
and after the last one (first setting `lastFullSync`).  A thrown
(non-quota) save error aborts the loop and is returned as the second
component; the inter-batch `sleep` has no observable state. -/
def runChunks (env : Env) (total numChunks : Nat) :
    Nat → List (List FollowedUser) → PassState → PassState × Option String
  | _, [], ps => (ps, none)
  | i, ch :: rest, ps =>
    let ps := ch.foldl (processUser env total) ps
    if (i + 1) % SAVE_INTERVAL = 0 || i = numChunks - 1 then
      let cache := { ps.cache with lastFullSync := env.now }
      match safeSaveBlockCache env ps.st cache with
      | .error msg => ({ ps with cache := cache }, some msg)
      | .ok res =>
        runChunks env total numChunks (i + 1) rest
          { st := res.2.1, cache := res.2.2, syncedCount := ps.syncedCount,
            errors := ps.errors }
    else runChunks env total numChunks (i + 1) rest ps

/-- The tail of the `try` block of `performFullSync` once the follow list
is available: store it on the cache, run the batch loop, then write the
final status (`isRunning: false`, `lastSync`, counts and errors). -/
def syncRunFollows (env : Env) (st : Storage) (cache : BlockCacheData)
    (follows : List FollowedUser) : Storage × Option String :=
  let cache := { cache with followedUsers := follows }
  let chunks := chunkList follows RATE_LIMIT_CONCURRENT
  let res := runChunks env follows.length chunks.length 0 chunks
    { st := st, cache := cache, syncedCount := 0, errors := [] }
  match res.2 with
  | some msg => (res.1.st, some msg)
  | none =>
    (updateSyncStatus res.1.st env.now
      { totalFollows := some follows.length
        syncedFollows := some res.1.syncedCount
        lastSync := some env.now
        isRunning := some false
        errors := some res.1.errors }, none)

/-- `getAllFollows` step of the `try` block: a rejection becomes a thrown
message. -/
def syncFollowsStage (env : Env) (st : Storage) (cache : BlockCacheData) :
    Storage × Option String :=
  match env.followsResult with
  | .error msg => (st, some msg)
  | .ok follows => syncRunFollows env st cache follows

/-- The proactive-prune step of the `try` block: if the loaded cache is
already near the quota ceiling, prune it and persist immediately, then
continue with the fetch stages. -/
def syncProactive (env : Env) (st : Storage) (cache : BlockCacheData) :
    Storage × Option String :=
  let initialSize := estimateObjectSize cache
  if PRUNE_PROACTIVE_THRESHOLD < initialSize then
    let cache := pruneCache cache
    match safeSaveBlockCache env st cache with
    | .error msg => (st, some msg)
    | .ok res => syncFollowsStage env res.2.1 res.2.2
  else syncFollowsStage env st cache

/-- The `try` block of `performFullSync` (auth check, status start write,
cache load/reset, proactive prune, then the fetch stages).  Returns the
storage together with the message of an uncaught exception, if any. -/
def syncTry (env : Env) (st : Storage) : Storage × Option String :=
  match st.auth with
  | none => (st, none)
  | some auth =>
    if auth.did = "" then (st, none)
    else
      let st := updateSyncStatus st env.now
        { totalFollows := none, syncedFollows := some 0, lastSync := none,
          isRunning := some true, errors := some [] }
      let cache :=
        match st.blockCache with
        | some c =>
          if c.currentUserDid = auth.did then c else createEmptyCache auth.did
        | none => createEmptyCache auth.did
      syncProactive env st cache

/-- The `try`/`catch` of `performFullSync`: a thrown message is recorded
as the single error and `isRunning` is cleared. -/
def syncBody (env : Env) (st : Storage) : Storage :=
  match syncTry env st with
  | (st', none) => st'
  | (st', some msg) =>
    updateSyncStatus st' env.now
      { totalFollows := none, syncedFollows := none, lastSync := none,
        isRunning := some false, errors := some [msg] }

/-- `performFullSync()` from `background.ts`: the duplicate-pass guard
with stale-lock recovery (`Date.now() - (lastUpdated || 0)`, which on a
`Nat`-valued `lastUpdated` is just the subtraction, computed in `Int` as
JS numbers can go negative), followed by the guarded pass body. -/
def performFullSync (env : Env) (st : Storage) : Storage :=
  let stat := getSyncStatus st
  if stat.isRunning then
    let timeSinceUpdate : Int := (env.now : Int) - (stat.lastUpdated : Int)
    if timeSinceUpdate < (STALE_LOCK_TIMEOUT_MS : Int) then st
    else
      syncBody env (updateSyncStatus st env.now
        { totalFollows := none, syncedFollows := none, lastSync := none,
          isRunning := some false, errors := none })
  else syncBody env st

/-- Whether the `getUserBlocks` call for `u` resolves (the `try` branch
of the per-account task runs to completion). -/
def fetchOk (env : Env) (u : FollowedUser) : Bool :=
  match env.blocksResult u.did with
  | .err _ => false
  | _ => true

/-- The error string pushed by the per-account `catch` branch for `u`,
if its fetch fails. -/
def fetchErrMsg (env : Env) (u : FollowedUser) : Option String :=
  match env.blocksResult u.did with
  | .err e => some ("Failed to sync " ++ u.handle ++ ": " ++ e)
  | _ => none

/-- An entry admissible in the block cache after a pass over initial
storage `st0`: either it was already present in the stored cache, or it
records at least one block (zero-block accounts are never written). -/
def entryOrNewOk (st0 : Storage) (p : String × UserBlockBloomCache) : Prop :=
  (∃ c₀, st0.blockCache = some c₀ ∧ p ∈ c₀.userBlockCaches) ∨
    1 ≤ p.2.blockCount

/-- Every entry of the block cache persisted in `st` is admissible
relative to the initial storage `st0`. -/
def storageEntriesOk (st0 st : Storage) : Prop :=
  ∀ c', st.blockCache = some c' →
    ∀ p ∈ c'.userBlockCaches, entryOrNewOk st0 p

/-! ### Concrete fixtures used by claim witnesses and counterexamples -/

def wUserA : FollowedUser :=
  { did := "did:a", handle := "alice", displayName := none, avatar := none }

def wUserB : FollowedUser :=
  { did := "did:b", handle := "bob", displayName := none, avatar := none }

def wAuth : BskySession :=
  { accessJwt := "jwt", refreshJwt := none, did := "did:me",
    handle := "me", pdsUrl := "pds" }

/-- Environment of the two-account scenario: account A blocks `did:t`,
account B blocks nobody, every save succeeds. -/
def wEnv : Env :=
  { now := 1700000000000
    saveOutcome := fun _ => none
    followsResult := .ok [wUserA, wUserB]
    blocksResult := fun d => if d = "did:a" then .arr ["did:t"] else .arr [] }

/-- Environment where the only followed account's block fetch fails. -/
def wEnvFail : Env :=
  { wEnv with followsResult := .ok [wUserA]
              blocksResult := fun _ => .err "boom" }

/-- Environment where every save fails with a quota message. -/
def wEnvQuota : Env := { wEnv with saveOutcome := fun _ => some "quota exceeded" }

/-- Environment where every save fails with a non-quota message. -/
def wEnvBoom : Env := { wEnv with saveOutcome := fun _ => some "boom" }

def wStEmpty : Storage :=
  { blockCache := none, syncStatus := none, auth := some wAuth }

def wStNoAuth : Storage :=
  { blockCache := none, syncStatus := none, auth := none }

/-- Status running with a heartbeat 1 minute old. -/
def wStFresh : Storage :=
  { blockCache := none
    syncStatus := some { defaultSyncStatus with
      isRunning := true, lastUpdated := 1700000000000 - 60000 }
    auth := some wAuth }

/-- Status running with a heartbeat 6 minutes old. -/
def wStStale : Storage :=
  { blockCache := none
    syncStatus := some { defaultSyncStatus with
      isRunning := true, lastUpdated := 1700000000000 - 360000 }
    auth := some wAuth }

def wCache : BlockCacheData := createEmptyCache "did:me"

/-- The entry the two-account scenario writes for account A. -/
def wEntryA : UserBlockBloomCache :=
  { did := "did:a", handle := "alice", displayName := none, avatar := none,
    pdsUrl := none,
    bloomFilter := bloomFilterFromArray ["did:t"]
      DEFAULT_BITS_PER_ELEMENT DEFAULT_NUM_HASHES,
    blockCount := 1, lastSynced := 1700000000000 }

/-- The cache persisted by the two-account scenario: exactly one entry,
for account A. -/
def wResultCache : BlockCacheData :=
  { followedUsers := [wUserA, wUserB]
    userBlockCaches := [("did:a", wEntryA)]
    lastFullSync := 1700000000000
    currentUserDid := "did:me" }

/-- An entry whose stored bit array is 7,000,000 bytes (9,333,336 base64
characters once serialized), used to exceed the 8MB ceiling. -/
def wBigEntry : UserBlockBloomCache :=
  { did := "did:big", handle := "big", displayName := none, avatar := none,
    pdsUrl := none,
    bloomFilter := { bits := List.replicate 7000000 0, size := 56000000,
                     numHashes := 10, count := 1 },
    blockCount := 1, lastSynced := 5 }

/-- A cache over the quota ceiling, used by the C3 witness. -/
def wBigCache : BlockCacheData :=
  { followedUsers := [], userBlockCaches := [("did:big", wBigEntry)],
    lastFullSync := 0, currentUserDid := "did:me" }

/-! ### Basic lemmas about the bit-vector operations -/

theorem length_setBloomBit (b : List Nat) (q : Nat) :
    (setBloomBit b q).length = b.length :=
  List.length_set b _ _

theorem length_foldl_setBloomBit (hs : List Nat) (b : List Nat) :
    (hs.foldl setBloomBit b).length = b.length := by
  induction hs generalizing b with
  | nil => rfl
  | cons q hs ih => simpa [List.foldl, length_setBloomBit] using ih (setBloomBit b q)

/-- The per-position bit test, phrased through `Nat.testBit`. -/
theorem testBloomBit_eq_testBit (b : List Nat) (q : Nat) :
    testBloomBit b q = (b.getD (q / 8) 0).testBit (q % 8) := by
  unfold testBloomBit
  rw [Nat.one_shiftLeft, Nat.and_two_pow]
  cases h : (b.getD (q / 8) 0).testBit (q % 8) <;>
    simp [h, (Nat.two_pow_pos (q % 8)).ne']

/-- An out-of-range `Uint8Array` write is silently ignored. -/
theorem setBloomBit_oob (b : List Nat) (q : Nat) (h : b.length ≤ q / 8) :
    setBloomBit b q = b := by
  unfold setBloomBit
  exact List.set_eq_of_length_le h

/-- Setting one bit never clears another: the bit test is monotone under
`setBloomBit`. -/
theorem testBloomBit_mono_set (b : List Nat) (p q : Nat)
    (h : testBloomBit b p = true) : testBloomBit (setBloomBit b q) p = true := by
  by_cases hlen : q / 8 < b.length
  · rw [testBloomBit_eq_testBit] at h ⊢
    unfold setBloomBit
    by_cases hij : q / 8 = p / 8
    · rw [List.getD_eq_getElem?_getD, ← hij,
        @List.getElem?_set_self _ b (q / 8) _ hlen]
      simp only [Option.getD_some]
      rw [Nat.testBit_or, hij]
      rw [List.getD_eq_getElem?_getD] at h
      simp [h]
    · rw [List.getD_eq_getElem?_getD, List.getElem?_set_ne hij,
        ← List.getD_eq_getElem?_getD]
      exact h
  · rw [setBloomBit_oob b q (le_of_not_lt hlen)]
    exact h

theorem testBloomBit_mono_foldl (hs : List Nat) (b : List Nat) (p : Nat)
    (h : testBloomBit b p = true) :
    testBloomBit (hs.foldl setBloomBit b) p = true := by
  induction hs generalizing b with
  | nil => exact h
  | cons q hs ih => exact ih (setBloomBit b q) (testBloomBit_mono_set b p q h)

/-- An in-range `setBloomBit` makes its own bit test succeed. -/
theorem testBloomBit_set_self (b : List Nat) (q : Nat)
    (h : q / 8 < b.length) : testBloomBit (setBloomBit b q) q = true := by
  rw [testBloomBit_eq_testBit]
  unfold setBloomBit
  rw [List.getD_eq_getElem?_getD, List.getElem?_set, if_pos rfl, if_pos h]
  simp [Nat.testBit_or, Nat.one_shiftLeft]

/-- After folding `setBloomBit` over a list of in-range positions, every
one of those positions tests positive. -/
theorem testBloomBit_foldl_all (hs : List Nat) (b : List Nat)
    (hlen : ∀ q ∈ hs, q / 8 < b.length) :
    ∀ q ∈ hs, testBloomBit (hs.foldl setBloomBit b) q = true := by
  induction hs generalizing b with
  | nil => intro q hq; cases hq
  | cons r hs ih =>
    intro q hq
    rcases List.mem_cons.mp hq with hqr | hqmem
    · subst hqr
      exact testBloomBit_mono_foldl hs _ q
        (testBloomBit_set_self b q (hlen q (List.mem_cons_self _ _)))
    · apply ih (setBloomBit b r) _ q hqmem
      intro q' hq'
      rw [length_setBloomBit]
      exact hlen q' (List.mem_cons_of_mem _ hq')

/-- Every derived position is `< size` when `size` is positive. -/
theorem getHashValues_lt (item : String) (k size : Nat) (hsz : 0 < size) :
    ∀ q ∈ getHashValues item k size, q < size := by
  intro q hq
  unfold getHashValues at hq
  rcases List.mem_map.mp hq with ⟨i, _, hi⟩
  subst hi
  exact Nat.mod_lt _ hsz

theorem bloomWF_create (e bpe nh : Nat) :
    bloomWF (createBloomFilter e bpe nh) := by
  unfold bloomWF createBloomFilter
  simp only [List.length_replicate]
  omega

theorem bloomWF_add (f : BloomFilterData) (x : String) (h : bloomWF f) :
    bloomWF (bloomFilterAdd f x) := by
  obtain ⟨h1, h2⟩ := h
  exact ⟨by simpa [bloomFilterAdd] using h1,
    by simpa [bloomFilterAdd, length_foldl_setBloomBit] using h2⟩

theorem mightContain_add_self (f : BloomFilterData) (x : String)
    (h : bloomWF f) :
    bloomFilterMightContain (bloomFilterAdd f x) x = true := by
  unfold bloomFilterMightContain bloomFilterAdd
  simp only [List.all_eq_true]
  intro q hq
  apply testBloomBit_foldl_all
  · intro r hr
    have hr' : r < f.size := getHashValues_lt x f.numHashes f.size h.1 r hr
    have := h.2
    omega
  · exact hq

theorem mightContain_mono_add (f : BloomFilterData) (x y : String)
    (h : bloomFilterMightContain f x = true) :
    bloomFilterMightContain (bloomFilterAdd f y) x = true := by
  simp only [bloomFilterMightContain, bloomFilterAdd, List.all_eq_true] at h ⊢
  intro q hq
  exact testBloomBit_mono_foldl _ _ q (h q hq)

theorem mightContain_mono_foldl (l : List String) (g : BloomFilterData)
    (x : String) (h : bloomFilterMightContain g x = true) :
    bloomFilterMightContain (l.foldl bloomFilterAdd g) x = true := by
  induction l generalizing g with
  | nil => exact h
  | cons y l ih => exact ih _ (mightContain_mono_add g x y h)

theorem mightContain_foldl_add (items : List String) :
    ∀ (f : BloomFilterData) (x : String), bloomWF f → x ∈ items →
      bloomFilterMightContain (items.foldl bloomFilterAdd f) x = true := by
  induction items with
  | nil => intro f x _ hx; cases hx
  | cons y rest ih =>
    intro f x hwf hx
    rcases List.mem_cons.mp hx with hxy | hxm
    · subst hxy
      exact mightContain_mono_foldl rest _ x (mightContain_add_self f x hwf)
    · exact ih (bloomFilterAdd f y) x (bloomWF_add f y hwf) hxm

/-- C1.  No false negatives: for every finite list of strings `items` and
every `x ∈ items`, `bloomFilterMightContain (bloomFilterFromArray items) x`
returns `true` (with the default `bitsPerElement = 15`, `numHashes = 10`
used by `bloomFilterFromArray(items)`). -/
theorem bloomFilterFromArray_no_false_negatives
    (items : List String) (x : String) (hx : x ∈ items) :
    bloomFilterMightContain
      (bloomFilterFromArray items DEFAULT_BITS_PER_ELEMENT DEFAULT_NUM_HASHES)
      x = true :=
  mightContain_foldl_add items _ x
    (bloomWF_create items.length DEFAULT_BITS_PER_ELEMENT DEFAULT_NUM_HASHES) hx

/-- Witness for C1 at the concrete input `items = ["a"]`, `x = "a"`. -/
theorem bloomFilterFromArray_no_false_negatives_witness :
    "a" ∈ ["a"] ∧
    bloomFilterMightContain
      (bloomFilterFromArray ["a"] DEFAULT_BITS_PER_ELEMENT DEFAULT_NUM_HASHES)
      "a" = true :=
  ⟨by decide,
   bloomFilterFromArray_no_false_negatives ["a"] "a" (by decide)⟩

/-- C5.  Membership monotonicity: if `bloomFilterMightContain f x` is true
then it is still true on `bloomFilterAdd f y`, for every filter `f` and all
strings `x`, `y` — adding elements never flips a membership test from
positive to negative. -/
theorem bloomFilterAdd_membership_monotone
    (f : BloomFilterData) (x y : String)
    (h : bloomFilterMightContain f x = true) :
    bloomFilterMightContain (bloomFilterAdd f y) x = true :=
  mightContain_mono_add f x y h

/-- Witness for C5 at the concrete filter built from `["a"]`, with
`x = "a"` and `y = "b"`. -/
theorem bloomFilterAdd_membership_monotone_witness :
    bloomFilterMightContain
      (bloomFilterFromArray ["a"] DEFAULT_BITS_PER_ELEMENT DEFAULT_NUM_HASHES)
      "a" = true ∧
    bloomFilterMightContain
      (bloomFilterAdd
        (bloomFilterFromArray ["a"] DEFAULT_BITS_PER_ELEMENT DEFAULT_NUM_HASHES)
        "b") "a" = true :=
  ⟨by decide,
   bloomFilterAdd_membership_monotone _ "a" "b" (by decide)⟩

/-- C6.  Hash position derivation: for every string `item`, hash count `k`
and filter size `m > 0`, the `i`-th derived bit position (`i < k`) equals
`(h1 + i·h2 + i²) mod m`, where `h1 = murmurHash3 item 0` and
`h2 = murmurHash3 item 0x9e3779b9` (the golden-ratio seed). -/
theorem getHashValues_kirsch_mitzenmacher
    (item : String) (k m i : Nat) (_hm : 0 < m) (hik : i < k) :
    (getHashValues item k m)[i]? =
      some ((murmurHash3 item 0 + i * murmurHash3 item 2654435769 + i * i)
        % m) := by
  unfold getHashValues
  rw [List.getElem?_map, List.getElem?_range hik, Option.map_some']
  rw [Nat.add_mod_right, Nat.mod_mod_of_dvd _ (dvd_refl m)]

/-- Witness for C6 at `item = "a"`, `k = 10`, `m = 64`, `i = 3`. -/
theorem getHashValues_kirsch_mitzenmacher_witness :
    0 < 64 ∧ 3 < 10 ∧
    (getHashValues "a" 10 64)[3]? =
      some ((murmurHash3 "a" 0 + 3 * murmurHash3 "a" 2654435769 + 3 * 3)
        % 64) :=
  ⟨by decide, by decide,
   getHashValues_kirsch_mitzenmacher "a" 10 64 3 (by decide) (by decide)⟩

/-! ### Lemmas about the batch loop of `performFullSync` -/

theorem chunkListGo_flatten {α : Type} :
    ∀ (fuel : Nat) (l : List α) (n : Nat), l.length ≤ fuel → 0 < n →
      (chunkListGo fuel l n).flatten = l := by
  intro fuel
  induction fuel with
  | zero =>
    intro l n hl _
    have hnil : l = [] := List.length_eq_zero.mp (Nat.le_zero.mp hl)
    subst hnil
    rfl
  | succ fuel ih =>
    intro l n hl hn
    cases l with
    | nil => rfl
    | cons x xs =>
      simp only [chunkListGo, List.flatten_cons]
      rw [ih (xs.drop (n - 1)) n
        (by simp only [List.length_drop]
            simp only [List.length_cons] at hl
            omega) hn]
      simp [List.take_append_drop]

theorem chunkList_flatten {α : Type} (l : List α) (n : Nat) (hn : 0 < n) :
    (chunkList l n).flatten = l :=
  chunkListGo_flatten l.length l n le_rfl hn

theorem processUser_err (env : Env) (total : Nat) (ps : PassState)
    (u : FollowedUser) (e : String) (hb : env.blocksResult u.did = .err e) :
    processUser env total ps u =
      { ps with errors :=
          ps.errors ++ ["Failed to sync " ++ u.handle ++ ": " ++ e] } := by
  simp [processUser, hb]

theorem processUser_ok_projections (env : Env) (total : Nat) (ps : PassState)
    (u : FollowedUser) (hb : fetchOk env u = true) :
    (processUser env total ps u).syncedCount = ps.syncedCount + 1 ∧
    (processUser env total ps u).errors = ps.errors := by
  unfold processUser
  unfold fetchOk at hb
  rcases h : env.blocksResult u.did with bl | _ | e
  · simp [h]
  · simp [h]
  · rw [h] at hb; simp at hb

theorem fetchErrMsg_none_of_ok (env : Env) (u : FollowedUser)
    (h : fetchOk env u = true) : fetchErrMsg env u = none := by
  unfold fetchOk at h
  unfold fetchErrMsg
  rcases hb : env.blocksResult u.did with bl | _ | e
  · simp [hb]
  · simp [hb]
  · rw [hb] at h; simp at h

theorem foldl_processUser_spec (env : Env) (total : Nat) :
    ∀ (users : List FollowedUser) (ps : PassState),
      (users.foldl (processUser env total) ps).syncedCount =
        ps.syncedCount + (users.filter (fetchOk env)).length ∧
      (users.foldl (processUser env total) ps).errors =
        ps.errors ++ users.filterMap (fetchErrMsg env) := by
  intro users
  induction users with
  | nil => intro ps; simp
  | cons u rest ih =>
    intro ps
    simp only [List.foldl_cons, List.filter_cons, List.filterMap_cons]
    cases hok : fetchOk env u with
    | false =>
      have hb : ∃ e, env.blocksResult u.did = .err e := by
        unfold fetchOk at hok
        rcases h : env.blocksResult u.did with bl | _ | e
        · rw [h] at hok; simp at hok
        · rw [h] at hok; simp at hok
        · exact ⟨e, rfl⟩
      obtain ⟨e, hb⟩ := hb
      rw [processUser_err env total ps u e hb]
      have hmsg : fetchErrMsg env u =
          some ("Failed to sync " ++ u.handle ++ ": " ++ e) := by
        unfold fetchErrMsg; rw [hb]
      refine ⟨?_, ?_⟩
      · rw [(ih _).1]; simp [hok]
      · rw [(ih _).2]; rw [hmsg]; simp [List.append_assoc]
    | true =>
      obtain ⟨hc, he⟩ := processUser_ok_projections env total ps u hok
      refine ⟨?_, ?_⟩
      · rw [(ih _).1, hc]; simp [hok]; omega
      · rw [(ih _).2, he, fetchErrMsg_none_of_ok env u hok]

theorem safeSaveBlockCache_no_throw (env : Env) (st : Storage)
    (cache : BlockCacheData)
    (hsave : ∀ c msg, env.saveOutcome c = some msg → isQuotaError msg = true) :
    ∃ r, safeSaveBlockCache env st cache = .ok r := by
  cases h : env.saveOutcome cache with
  | none =>
    exact ⟨(true, { st with blockCache := some cache }, cache),
      by simp [safeSaveBlockCache, h]⟩
  | some msg =>
    have hq := hsave cache msg h
    cases h2 : env.saveOutcome (pruneCache cache) with
    | none =>
      exact ⟨(true, { st with blockCache := some (pruneCache cache) },
        pruneCache cache), by simp [safeSaveBlockCache, h, hq, h2]⟩
    | some msg2 =>
      exact ⟨(false, st, pruneCache cache),
        by simp [safeSaveBlockCache, h, hq, h2]⟩

theorem runChunks_spec (env : Env) (total numChunks : Nat)
    (hsave : ∀ c msg, env.saveOutcome c = some msg → isQuotaError msg = true) :
    ∀ (chunks : List (List FollowedUser)) (i : Nat) (ps : PassState),
      (runChunks env total numChunks i chunks ps).2 = none ∧
      (runChunks env total numChunks i chunks ps).1.syncedCount =
        ps.syncedCount + (chunks.flatten.filter (fetchOk env)).length ∧
      (runChunks env total numChunks i chunks ps).1.errors =
        ps.errors ++ chunks.flatten.filterMap (fetchErrMsg env) := by
  intro chunks
  induction chunks with
  | nil => intro i ps; simp [runChunks]
  | cons ch rest ih =>
    intro i ps
    obtain ⟨hc, he⟩ := foldl_processUser_spec env total ch ps
    simp only [runChunks]
    split
    · obtain ⟨r, hr⟩ := safeSaveBlockCache_no_throw env
        ((ch.foldl (processUser env total) ps).st)
        { (ch.foldl (processUser env total) ps).cache with
          lastFullSync := env.now } hsave
      simp only [hr]
      obtain ⟨ih1, ih2, ih3⟩ := ih (i + 1)
        { st := r.2.1, cache := r.2.2,
          syncedCount := (ch.foldl (processUser env total) ps).syncedCount,
          errors := (ch.foldl (processUser env total) ps).errors }
      refine ⟨ih1, ?_, ?_⟩
      · rw [ih2]
        simp only [hc, List.flatten_cons, List.filter_append,
          List.length_append]
        omega
      · rw [ih3]
        simp only [he, List.flatten_cons, List.filterMap_append,
          List.append_assoc]
    · obtain ⟨ih1, ih2, ih3⟩ := ih (i + 1) (ch.foldl (processUser env total) ps)
      refine ⟨ih1, ?_, ?_⟩
      · rw [ih2]
        simp only [hc, List.flatten_cons, List.filter_append,
          List.length_append]
        omega
      · rw [ih3]
        simp only [he, List.flatten_cons, List.filterMap_append,
          List.append_assoc]

/-- The final status written by a pass whose follow list is `follows` and
whose checkpoint saves never throw. -/
def finalPassStatus (env : Env) (follows : List FollowedUser) : SyncStatus :=
  { totalFollows := follows.length
    syncedFollows := (follows.filter (fetchOk env)).length
    lastSync := env.now
    isRunning := false
    lastUpdated := env.now
    errors := follows.filterMap (fetchErrMsg env) }

theorem syncRunFollows_spec (env : Env) (st : Storage)
    (cache : BlockCacheData) (follows : List FollowedUser)
    (hsave : ∀ c msg, env.saveOutcome c = some msg → isQuotaError msg = true) :
    (syncRunFollows env st cache follows).2 = none ∧
    getSyncStatus (syncRunFollows env st cache follows).1 =
      finalPassStatus env follows := by
  obtain ⟨h1, h2, h3⟩ := runChunks_spec env follows.length
    (chunkList follows RATE_LIMIT_CONCURRENT).length hsave
    (chunkList follows RATE_LIMIT_CONCURRENT) 0
    { st := st, cache := { cache with followedUsers := follows },
      syncedCount := 0, errors := [] }
  rw [chunkList_flatten follows RATE_LIMIT_CONCURRENT (by decide)] at h2 h3
  simp only [syncRunFollows, h1]
  refine ⟨trivial, ?_⟩
  simp [getSyncStatus, updateSyncStatus, applyPatch, finalPassStatus, h2, h3]

theorem syncFollowsStage_spec (env : Env) (st : Storage)
    (cache : BlockCacheData) (follows : List FollowedUser)
    (hf : env.followsResult = .ok follows)
    (hsave : ∀ c msg, env.saveOutcome c = some msg → isQuotaError msg = true) :
    (syncFollowsStage env st cache).2 = none ∧
    getSyncStatus (syncFollowsStage env st cache).1 =
      finalPassStatus env follows := by
  unfold syncFollowsStage
  rw [hf]
  exact syncRunFollows_spec env st cache follows hsave

theorem syncProactive_spec (env : Env) (st : Storage)
    (cache : BlockCacheData) (follows : List FollowedUser)
    (hf : env.followsResult = .ok follows)
    (hsave : ∀ c msg, env.saveOutcome c = some msg → isQuotaError msg = true) :
    (syncProactive env st cache).2 = none ∧
    getSyncStatus (syncProactive env st cache).1 =
      finalPassStatus env follows := by
  by_cases hth : PRUNE_PROACTIVE_THRESHOLD < estimateObjectSize cache
  · obtain ⟨r, hr⟩ := safeSaveBlockCache_no_throw env st (pruneCache cache) hsave
    simp only [syncProactive, if_pos hth, hr]
    exact syncFollowsStage_spec env r.2.1 r.2.2 follows hf hsave
  · simp only [syncProactive, if_neg hth]
    exact syncFollowsStage_spec env st cache follows hf hsave

theorem syncTry_spec (env : Env) (st : Storage) (a : BskySession)
    (follows : List FollowedUser)
    (ha : st.auth = some a) (hdid : ¬a.did = "")
    (hf : env.followsResult = .ok follows)
    (hsave : ∀ c msg, env.saveOutcome c = some msg → isQuotaError msg = true) :
    (syncTry env st).2 = none ∧
    getSyncStatus (syncTry env st).1 = finalPassStatus env follows := by
  unfold syncTry
  rw [ha]
  simp only [hdid, if_false]
  exact syncProactive_spec env _ _ follows hf hsave

theorem syncBody_spec (env : Env) (st : Storage) (a : BskySession)
    (follows : List FollowedUser)
    (ha : st.auth = some a) (hdid : ¬a.did = "")
    (hf : env.followsResult = .ok follows)
    (hsave : ∀ c msg, env.saveOutcome c = some msg → isQuotaError msg = true) :
    getSyncStatus (syncBody env st) = finalPassStatus env follows := by
  obtain ⟨h1, h2⟩ := syncTry_spec env st a follows ha hdid hf hsave
  unfold syncBody
  rcases hq : syncTry env st with ⟨st', o⟩
  rw [hq] at h1 h2
  simp only at h1 h2
  subst h1
  exact h2

/-! ### Lemmas about `pruneCache` structure and cache-entry provenance -/

theorem mem_recordSet {α : Type} (m : List (String × α)) (k : String) (v : α)
    (p : String × α) (hp : p ∈ recordSet m k v) : p ∈ m ∨ p = (k, v) := by
  unfold recordSet at hp
  split at hp
  · rcases List.mem_map.mp hp with ⟨q, hq, hqe⟩
    by_cases hk : (q.1 == k) = true
    · rw [if_pos hk] at hqe
      exact Or.inr hqe.symm
    · rw [if_neg hk] at hqe
      exact Or.inl (hqe ▸ hq)
  · rcases List.mem_append.mp hp with h | h
    · exact Or.inl h
    · right
      simpa using h

theorem pruneLoop_frame_and_sublist :
    ∀ (l : List (String × Nat)) (c : BlockCacheData) (s : Int),
      (pruneLoop c l s).1.followedUsers = c.followedUsers ∧
      (pruneLoop c l s).1.lastFullSync = c.lastFullSync ∧
      (pruneLoop c l s).1.currentUserDid = c.currentUserDid ∧
      (pruneLoop c l s).1.userBlockCaches.Sublist c.userBlockCaches := by
  intro l
  induction l with
  | nil => intro c s; exact ⟨rfl, rfl, rfl, List.Sublist.refl _⟩
  | cons hd rest ih =>
    intro c s
    obtain ⟨did, ls⟩ := hd
    simp only [pruneLoop]
    split
    · exact ⟨rfl, rfl, rfl, List.Sublist.refl _⟩
    · refine ⟨(ih _ _).1, (ih _ _).2.1, (ih _ _).2.2.1, ?_⟩
      exact ((ih _ _).2.2.2).trans (List.filter_sublist _)

theorem pruneCache_userBlockCaches_sublist (c : BlockCacheData) :
    (pruneCache c).userBlockCaches.Sublist c.userBlockCaches :=
  (pruneLoop_frame_and_sublist (usersByAge c) c _).2.2.2

theorem processUser_cache_arr (env : Env) (total : Nat) (ps : PassState)
    (u : FollowedUser) (bl : List String)
    (hb : env.blocksResult u.did = .arr bl) (hlen : 0 < bl.length) :
    (processUser env total ps u).cache.userBlockCaches =
      recordSet ps.cache.userBlockCaches u.did
        { did := u.did, handle := u.handle, displayName := u.displayName,
          avatar := u.avatar, pdsUrl := none,
          bloomFilter := bloomFilterFromArray bl
            DEFAULT_BITS_PER_ELEMENT DEFAULT_NUM_HASHES,
          blockCount := bl.length, lastSynced := env.now } := by
  simp [processUser, hb, hlen]

theorem processUser_cache_arr_nil (env : Env) (total : Nat) (ps : PassState)
    (u : FollowedUser) (bl : List String)
    (hb : env.blocksResult u.did = .arr bl) (hlen : ¬0 < bl.length) :
    (processUser env total ps u).cache = ps.cache := by
  simp [processUser, hb, hlen]

theorem processUser_cache_nonArr (env : Env) (total : Nat) (ps : PassState)
    (u : FollowedUser) (hb : env.blocksResult u.did = .nonArr) :
    (processUser env total ps u).cache = ps.cache := by
  simp [processUser, hb]

theorem processUser_cache_err (env : Env) (total : Nat) (ps : PassState)
    (u : FollowedUser) (e : String) (hb : env.blocksResult u.did = .err e) :
    (processUser env total ps u).cache = ps.cache := by
  simp [processUser, hb]

theorem processUser_entries_ok (env : Env) (total : Nat) (ps : PassState)
    (u : FollowedUser) (st0 : Storage)
    (h : ∀ p ∈ ps.cache.userBlockCaches, entryOrNewOk st0 p) :
    ∀ p ∈ (processUser env total ps u).cache.userBlockCaches,
      entryOrNewOk st0 p := by
  intro p hp
  rcases hb : env.blocksResult u.did with bl | _ | e
  · by_cases hlen : 0 < bl.length
    · rw [processUser_cache_arr env total ps u bl hb hlen] at hp
      rcases mem_recordSet _ _ _ _ hp with hm | he
      · exact h p hm
      · right
        rw [he]
        exact hlen
    · rw [processUser_cache_arr_nil env total ps u bl hb hlen] at hp
      exact h p hp
  · rw [processUser_cache_nonArr env total ps u hb] at hp
    exact h p hp
  · rw [processUser_cache_err env total ps u e hb] at hp
    exact h p hp

theorem processUser_st_blockCache (env : Env) (total : Nat) (ps : PassState)
    (u : FollowedUser) :
    (processUser env total ps u).st.blockCache = ps.st.blockCache := by
  rcases hb : env.blocksResult u.did with bl | _ | e <;>
    simp [processUser, hb, updateSyncStatus]

theorem foldl_processUser_entries_ok (env : Env) (total : Nat) (st0 : Storage) :
    ∀ (users : List FollowedUser) (ps : PassState),
      (∀ p ∈ ps.cache.userBlockCaches, entryOrNewOk st0 p) →
      ∀ p ∈ (users.foldl (processUser env total) ps).cache.userBlockCaches,
        entryOrNewOk st0 p := by
  intro users
  induction users with
  | nil => intro ps h; exact h
  | cons u rest ih =>
    intro ps h
    exact ih _ (processUser_entries_ok env total ps u st0 h)

theorem foldl_processUser_st_blockCache (env : Env) (total : Nat) :
    ∀ (users : List FollowedUser) (ps : PassState),
      (users.foldl (processUser env total) ps).st.blockCache =
        ps.st.blockCache := by
  intro users
  induction users with
  | nil => intro ps; rfl
  | cons u rest ih =>
    intro ps
    rw [List.foldl_cons, ih, processUser_st_blockCache]

theorem safeSaveBlockCache_cases (env : Env) (st : Storage)
    (cache : BlockCacheData) (b : Bool) (st' : Storage) (c' : BlockCacheData)
    (h : safeSaveBlockCache env st cache = .ok (b, st', c')) :
    (st'.blockCache = st.blockCache ∨ st'.blockCache = some cache ∨
      st'.blockCache = some (pruneCache cache)) ∧
    (c' = cache ∨ c' = pruneCache cache) := by
  unfold safeSaveBlockCache at h
  cases hs : env.saveOutcome cache with
  | none =>
    rw [hs] at h
    simp only [Except.ok.injEq, Prod.mk.injEq] at h
    obtain ⟨-, hst, hc⟩ := h
    subst hst
    subst hc
    exact ⟨Or.inr (Or.inl rfl), Or.inl rfl⟩
  | some msg =>
    rw [hs] at h
    simp only at h
    by_cases hq : isQuotaError msg = true
    · rw [if_pos hq] at h
      cases hs2 : env.saveOutcome (pruneCache cache) with
      | none =>
        rw [hs2] at h
        simp only [Except.ok.injEq, Prod.mk.injEq] at h
        obtain ⟨-, hst, hc⟩ := h
        subst hst
        subst hc
        exact ⟨Or.inr (Or.inr rfl), Or.inr rfl⟩
      | some m2 =>
        rw [hs2] at h
        simp only [Except.ok.injEq, Prod.mk.injEq] at h
        obtain ⟨-, hst, hc⟩ := h
        subst hst
        subst hc
        exact ⟨Or.inl rfl, Or.inr rfl⟩
    · rw [if_neg hq] at h
      exact absurd h (by simp)

theorem storageEntriesOk_refl (st : Storage) : storageEntriesOk st st :=
  fun c' hc' _p hp => Or.inl ⟨c', hc', hp⟩

theorem storageEntriesOk_update (st0 st : Storage) (now : Nat)
    (p : SyncStatusPatch) (h : storageEntriesOk st0 st) :
    storageEntriesOk st0 (updateSyncStatus st now p) :=
  fun c' hc' => h c' hc'

theorem runChunks_entries_ok (env : Env) (total numChunks : Nat)
    (st0 : Storage) :
    ∀ (chunks : List (List FollowedUser)) (i : Nat) (ps : PassState),
      (∀ p ∈ ps.cache.userBlockCaches, entryOrNewOk st0 p) →
      storageEntriesOk st0 ps.st →
      (∀ p ∈ (runChunks env total numChunks i chunks ps).1.cache.userBlockCaches,
        entryOrNewOk st0 p) ∧
      storageEntriesOk st0 (runChunks env total numChunks i chunks ps).1.st := by
  intro chunks
  induction chunks with
  | nil => intro i ps h1 h2; exact ⟨h1, h2⟩
  | cons ch rest ih =>
    intro i ps h1 h2
    have hfold1 := foldl_processUser_entries_ok env total st0 ch ps h1
    have hfold2 : storageEntriesOk st0 ((ch.foldl (processUser env total) ps).st) := by
      intro c' hc' q hq
      rw [foldl_processUser_st_blockCache] at hc'
      exact h2 c' hc' q hq
    simp only [runChunks]
    split
    · rcases hss : safeSaveBlockCache env ((ch.foldl (processUser env total) ps).st)
          { (ch.foldl (processUser env total) ps).cache with
            lastFullSync := env.now } with msg | r
      · simp only [hss]
        exact ⟨fun p hp => hfold1 p hp, hfold2⟩
      · obtain ⟨b, st', c'⟩ := r
        obtain ⟨hstc, hcc⟩ := safeSaveBlockCache_cases env _ _ b st' c' hss
        simp only [hss]
        apply ih (i + 1)
        · intro p hp
          rcases hcc with hc | hc
          · rw [hc] at hp
            exact hfold1 p hp
          · rw [hc] at hp
            exact hfold1 p ((pruneCache_userBlockCaches_sublist
              { (ch.foldl (processUser env total) ps).cache with
                lastFullSync := env.now }).subset hp)
        · intro c'' hc'' q hq
          rcases hstc with hbc | hbc | hbc
          · rw [hbc] at hc''
            exact hfold2 c'' hc'' q hq
          · rw [hbc] at hc''
            injection hc'' with he
            subst he
            exact hfold1 q hq
          · rw [hbc] at hc''
            injection hc'' with he
            subst he
            exact hfold1 q ((pruneCache_userBlockCaches_sublist
              { (ch.foldl (processUser env total) ps).cache with
                lastFullSync := env.now }).subset hq)
    · exact ih (i + 1) _ hfold1 hfold2

theorem syncRunFollows_entries_ok (env : Env) (st : Storage)
    (cache : BlockCacheData) (follows : List FollowedUser) (st0 : Storage)
    (hc : ∀ p ∈ cache.userBlockCaches, entryOrNewOk st0 p)
    (hst : storageEntriesOk st0 st) :
    storageEntriesOk st0 (syncRunFollows env st cache follows).1 := by
  obtain ⟨h1, h2⟩ := runChunks_entries_ok env follows.length
    (chunkList follows RATE_LIMIT_CONCURRENT).length st0
    (chunkList follows RATE_LIMIT_CONCURRENT) 0
    { st := st, cache := { cache with followedUsers := follows },
      syncedCount := 0, errors := [] } (fun p hp => hc p hp) hst
  cases ho : (runChunks env follows.length
      (chunkList follows RATE_LIMIT_CONCURRENT).length 0
      (chunkList follows RATE_LIMIT_CONCURRENT)
      { st := st, cache := { cache with followedUsers := follows },
        syncedCount := 0, errors := [] }).2 with
  | some m =>
    simp only [syncRunFollows, ho]
    exact h2
  | none =>
    simp only [syncRunFollows, ho]
    exact storageEntriesOk_update st0 _ env.now _ h2

theorem syncFollowsStage_entries_ok (env : Env) (st : Storage)
    (cache : BlockCacheData) (st0 : Storage)
    (hc : ∀ p ∈ cache.userBlockCaches, entryOrNewOk st0 p)
    (hst : storageEntriesOk st0 st) :
    storageEntriesOk st0 (syncFollowsStage env st cache).1 := by
  unfold syncFollowsStage
  cases hf : env.followsResult with
  | error m => exact hst
  | ok follows => exact syncRunFollows_entries_ok env st cache follows st0 hc hst

theorem syncProactive_entries_ok (env : Env) (st : Storage)
    (cache : BlockCacheData) (st0 : Storage)
    (hc : ∀ p ∈ cache.userBlockCaches, entryOrNewOk st0 p)
    (hst : storageEntriesOk st0 st) :
    storageEntriesOk st0 (syncProactive env st cache).1 := by
  have hcp : ∀ p ∈ (pruneCache cache).userBlockCaches, entryOrNewOk st0 p :=
    fun p hp => hc p ((pruneCache_userBlockCaches_sublist cache).subset hp)
  by_cases hth : PRUNE_PROACTIVE_THRESHOLD < estimateObjectSize cache
  · rcases hss : safeSaveBlockCache env st (pruneCache cache) with msg | r
    · simp only [syncProactive, if_pos hth, hss]
      exact hst
    · obtain ⟨b, st', c'⟩ := r
      obtain ⟨hstc, hcc⟩ := safeSaveBlockCache_cases env _ _ b st' c' hss
      simp only [syncProactive, if_pos hth, hss]
      apply syncFollowsStage_entries_ok env st' c' st0
      · intro p hp
        rcases hcc with hcx | hcx
        · rw [hcx] at hp
          exact hcp p hp
        · rw [hcx] at hp
          exact hcp p ((pruneCache_userBlockCaches_sublist _).subset hp)
      · intro c'' hc'' q hq
        rcases hstc with hbc | hbc | hbc
        · rw [hbc] at hc''
          exact hst c'' hc'' q hq
        · rw [hbc] at hc''
          injection hc'' with he
          subst he
          exact hcp q hq
        · rw [hbc] at hc''
          injection hc'' with he
          subst he
          exact hcp q ((pruneCache_userBlockCaches_sublist _).subset hq)
  · simp only [syncProactive, if_neg hth]
    exact syncFollowsStage_entries_ok env st cache st0 hc hst

theorem updateSyncStatus_blockCache (st : Storage) (now : Nat)
    (p : SyncStatusPatch) :
    (updateSyncStatus st now p).blockCache = st.blockCache := rfl

theorem syncTry_entries_ok (env : Env) (st : Storage) :
    storageEntriesOk st (syncTry env st).1 := by
  unfold syncTry
  cases ha : st.auth with
  | none => exact storageEntriesOk_refl st
  | some a =>
    by_cases hdid : a.did = ""
    · simp only [if_pos hdid]
      exact storageEntriesOk_refl st
    · simp only [if_neg hdid]
      apply syncProactive_entries_ok
      · rw [updateSyncStatus_blockCache]
        cases hbc : st.blockCache with
        | none => intro p hp; cases hp
        | some c =>
          by_cases hown : c.currentUserDid = a.did
          · simp only [if_pos hown]
            intro p hp
            exact Or.inl ⟨c, hbc, hp⟩
          · simp only [if_neg hown]
            intro p hp
            cases hp
      · exact storageEntriesOk_update st st env.now _ (storageEntriesOk_refl st)

theorem syncBody_entries_ok (env : Env) (st : Storage) :
    storageEntriesOk st (syncBody env st) := by
  have h := syncTry_entries_ok env st
  unfold syncBody
  rcases hq : syncTry env st with ⟨st', o⟩
  rw [hq] at h
  cases o with
  | none => exact h
  | some m => exact storageEntriesOk_update st st' env.now _ h

theorem performFullSync_entries_ok (env : Env) (st : Storage) :
    storageEntriesOk st (performFullSync env st) := by
  cases hrun : (getSyncStatus st).isRunning with
  | false =>
    simp only [performFullSync, hrun, Bool.false_eq_true, if_false]
    exact syncBody_entries_ok env st
  | true =>
    simp only [performFullSync, hrun, if_true]
    by_cases htime : (env.now : Int) - ((getSyncStatus st).lastUpdated : Int) <
        (STALE_LOCK_TIMEOUT_MS : Int)
    · rw [if_pos htime]
      exact storageEntriesOk_refl st
    · rw [if_neg htime]
      exact syncBody_entries_ok env _

/-- Counterexample to C2 as stated.  One followed account (`alice`) whose
block-list fetch fails: the claim says the orchestrator increments the
synced-follows counter and updates the status heartbeat for every
processed account regardless of success or failure, so `syncedFollows`
should end at `1`; the code increments the counter and writes the status
only in the success branch (`try`), so the pass ends with
`syncedFollows = 0` while the error list shows the account was processed
and failed. -/
theorem performFullSync_failure_not_counted :
    (getSyncStatus (performFullSync wEnvFail wStEmpty)).syncedFollows = 0 ∧
    (getSyncStatus (performFullSync wEnvFail wStEmpty)).errors =
      ["Failed to sync alice: boom"] := by
  decide

/-- C2 (amended).  Per-account accounting of a pass: the synced-follows
counter and the per-account heartbeat write happen only for accounts
whose block-list fetch succeeds; on a per-account failure the orchestrator
appends a descriptive error to the status error list and the pass
continues with the remaining accounts (no increment, no per-account
status write).  Consequently a completed pass ends with `syncedFollows`
equal to the number of successful accounts, `errors` equal to the
messages of the failed ones (in order), `isRunning = false` and a fresh
heartbeat. -/
theorem performFullSync_per_account_accounting (env : Env) (st : Storage)
    (a : BskySession) (follows : List FollowedUser)
    (hrun : (getSyncStatus st).isRunning = false)
    (ha : st.auth = some a) (hdid : ¬a.did = "")
    (hf : env.followsResult = .ok follows)
    (hsave : ∀ c msg, env.saveOutcome c = some msg → isQuotaError msg = true) :
    getSyncStatus (performFullSync env st) = finalPassStatus env follows := by
  simp only [performFullSync, hrun, if_false, Bool.false_eq_true]
  exact syncBody_spec env st a follows ha hdid hf hsave

/-- Witness for the amended C2 at the one-failing-account scenario. -/
theorem performFullSync_per_account_accounting_witness :
    (getSyncStatus wStEmpty).isRunning = false ∧
    wStEmpty.auth = some wAuth ∧
    ¬wAuth.did = "" ∧
    wEnvFail.followsResult = .ok [wUserA] ∧
    getSyncStatus (performFullSync wEnvFail wStEmpty) =
      finalPassStatus wEnvFail [wUserA] :=
  ⟨by decide, rfl, by decide, rfl,
   performFullSync_per_account_accounting wEnvFail wStEmpty wAuth [wUserA]
     (by decide) rfl (by decide) rfl
     (fun _ _ h => Option.noConfusion h)⟩

/-- C4.  Stale-lock recovery: with the persisted status `running = true`,
a pass request is dropped (storage unchanged, no new pass) when the
heartbeat age `now − lastUpdated` is below the 5-minute threshold, and
when it is not, the lock is cleared (`isRunning := false` written with a
fresh heartbeat) and the pass body proceeds on the cleared state. -/
theorem performFullSync_stale_lock (env : Env) (st : Storage)
    (hrun : (getSyncStatus st).isRunning = true) :
    ((env.now : Int) - ((getSyncStatus st).lastUpdated : Int) <
        (STALE_LOCK_TIMEOUT_MS : Int) →
      performFullSync env st = st) ∧
    ((STALE_LOCK_TIMEOUT_MS : Int) ≤
        (env.now : Int) - ((getSyncStatus st).lastUpdated : Int) →
      performFullSync env st =
        syncBody env (updateSyncStatus st env.now
          { totalFollows := none, syncedFollows := none, lastSync := none,
            isRunning := some false, errors := none })) := by
  constructor
  · intro hlt
    simp only [performFullSync, hrun, if_true]
    rw [if_pos hlt]
  · intro hge
    simp only [performFullSync, hrun, if_true]
    rw [if_neg (not_lt.mpr hge)]

/-- Witness for C4: a heartbeat 6 minutes old allows the new pass to
proceed (on the cleared lock), a heartbeat 1 minute old drops the
request and leaves the storage unchanged. -/
theorem performFullSync_stale_lock_witness :
    (getSyncStatus wStFresh).isRunning = true ∧
    performFullSync wEnv wStFresh = wStFresh ∧
    (getSyncStatus wStStale).isRunning = true ∧
    performFullSync wEnv wStStale =
      syncBody wEnv (updateSyncStatus wStStale wEnv.now
        { totalFollows := none, syncedFollows := none, lastSync := none,
          isRunning := some false, errors := none }) :=
  ⟨by decide,
   (performFullSync_stale_lock wEnv wStFresh (by decide)).1 (by decide),
   by decide,
   (performFullSync_stale_lock wEnv wStStale (by decide)).2 (by decide)⟩

/-- C9.  Missing auth is a silent no-op: with no stored auth context and
the status not running, a sync-pass invocation leaves the storage
(in particular the block cache and the status error list) completely
unchanged. -/
theorem performFullSync_no_auth_noop (env : Env) (st : Storage)
    (hrun : (getSyncStatus st).isRunning = false) (hauth : st.auth = none) :
    performFullSync env st = st := by
  simp only [performFullSync, hrun, if_false, Bool.false_eq_true]
  simp [syncBody, syncTry, hauth]

/-- Witness for C9 at a storage with no auth and a default status. -/
theorem performFullSync_no_auth_noop_witness :
    (getSyncStatus wStNoAuth).isRunning = false ∧
    wStNoAuth.auth = none ∧
    performFullSync wEnv wStNoAuth = wStNoAuth :=
  ⟨by decide, by decide,
   performFullSync_no_auth_noop wEnv wStNoAuth (by decide) (by decide)⟩

/-- C7.  Capacity-exceeded save recovery: a successful save returns
`true`; a save failing with a quota error prunes and retries exactly
once — if the retry succeeds the result is `true` with the pruned cache
saved, if the retry fails the result is the error flag `false` (returned,
not thrown, with no further retry, so the caller's loop continues); a
non-quota save failure is rethrown without any pruning. -/
theorem safeSaveBlockCache_quota_recovery
    (env : Env) (st : Storage) (cache : BlockCacheData) :
    (env.saveOutcome cache = none →
      safeSaveBlockCache env st cache =
        .ok (true, { st with blockCache := some cache }, cache)) ∧
    (∀ msg, env.saveOutcome cache = some msg → isQuotaError msg = true →
      (env.saveOutcome (pruneCache cache) = none →
        safeSaveBlockCache env st cache =
          .ok (true, { st with blockCache := some (pruneCache cache) },
            pruneCache cache)) ∧
      (∀ msg2, env.saveOutcome (pruneCache cache) = some msg2 →
        safeSaveBlockCache env st cache = .ok (false, st, pruneCache cache))) ∧
    (∀ msg, env.saveOutcome cache = some msg → isQuotaError msg = false →
      safeSaveBlockCache env st cache = .error msg) := by
  refine ⟨fun h => ?_, fun msg h hq => ⟨fun h2 => ?_, fun msg2 h2 => ?_⟩,
    fun msg h hq => ?_⟩
  · simp [safeSaveBlockCache, h]
  · simp [safeSaveBlockCache, h, hq, h2]
  · simp [safeSaveBlockCache, h, hq, h2]
  · simp [safeSaveBlockCache, h, hq]

/-- Witness for C7: with every save failing with a quota message the
retry-once path returns the `false` error result on the pruned cache;
with every save failing with a non-quota message the error is rethrown. -/
theorem safeSaveBlockCache_quota_recovery_witness :
    wEnvQuota.saveOutcome wCache = some "quota exceeded" ∧
    isQuotaError "quota exceeded" = true ∧
    wEnvQuota.saveOutcome (pruneCache wCache) = some "quota exceeded" ∧
    safeSaveBlockCache wEnvQuota wStEmpty wCache =
      .ok (false, wStEmpty, pruneCache wCache) ∧
    wEnvBoom.saveOutcome wCache = some "boom" ∧
    isQuotaError "boom" = false ∧
    safeSaveBlockCache wEnvBoom wStEmpty wCache = .error "boom" :=
  ⟨rfl, by decide, rfl,
   ((safeSaveBlockCache_quota_recovery wEnvQuota wStEmpty wCache).2.1
      "quota exceeded" rfl (by decide)).2 "quota exceeded" rfl,
   rfl, by decide,
   (safeSaveBlockCache_quota_recovery wEnvBoom wStEmpty wCache).2.2
     "boom" rfl (by decide)⟩

/-! ### Lemmas for the quota-pruning bound (C3) -/

theorem jsonObjSize_four (a b c d : Nat) :
    jsonObjSize [some a, some b, some c, some d] = a + b + c + d + 5 := by
  simp [jsonObjSize]
  omega

theorem two_le_jsonStrSize (s : String) : 2 ≤ jsonStrSize s :=
  Nat.le_add_right 2 _

/-- Deleting a present key (under key uniqueness) shrinks the serialized
`userBlockCaches` object by at least the serialized entry: the removed
property also drops the quoted key, the colon and (usually) a comma. -/
theorem entriesObjSize_delete (l : List (String × UserBlockBloomCache))
    (d : String) (e : UserBlockBloomCache)
    (hmem : (d, e) ∈ l) (hnd : (l.map Prod.fst).Nodup) :
    entriesObjSize (recordDelete l d) + estimateEntrySize e ≤
      entriesObjSize l := by
  obtain ⟨l1, l2, hsplit⟩ := List.append_of_mem hmem
  subst hsplit
  have hnd' : d ∉ l1.map Prod.fst ∧ d ∉ l2.map Prod.fst := by
    rw [List.map_append, List.map_cons] at hnd
    rw [List.nodup_append] at hnd
    obtain ⟨-, hn2, hdisj⟩ := hnd
    exact ⟨fun hmem1 => hdisj hmem1 (by simp),
      (List.nodup_cons.mp hn2).1⟩
  have hfilter : recordDelete (l1 ++ (d, e) :: l2) d = l1 ++ l2 := by
    unfold recordDelete
    rw [List.filter_append, List.filter_cons]
    have hhead : (((d, e).1 != d) = true) = False := by simp
    rw [if_neg (by simp)]
    have hl1 : List.filter (fun p => p.1 != d) l1 = l1 :=
      List.filter_eq_self.mpr (fun p hp => by
        have : p.1 ≠ d := fun hpd =>
          hnd'.1 (hpd ▸ List.mem_map_of_mem Prod.fst hp)
        simpa using this)
    have hl2 : List.filter (fun p => p.1 != d) l2 = l2 :=
      List.filter_eq_self.mpr (fun p hp => by
        have : p.1 ≠ d := fun hpd =>
          hnd'.2 (hpd ▸ List.mem_map_of_mem Prod.fst hp)
        simpa using this)
    rw [hl1, hl2]
  rw [hfilter]
  have hpair : entryPairSize (d, e) =
      jsonStrSize d + 1 + estimateEntrySize e := rfl
  have hd2 : 2 ≤ jsonStrSize d := two_le_jsonStrSize d
  simp only [entriesObjSize, List.map_append, List.map_cons,
    List.sum_append, List.sum_cons, List.length_append, List.length_cons,
    hpair]
  omega

theorem estimateObjectSize_delete (c : BlockCacheData) (d : String)
    (e : UserBlockBloomCache) (hmem : (d, e) ∈ c.userBlockCaches)
    (hnd : (c.userBlockCaches.map Prod.fst).Nodup) :
    estimateObjectSize
        { c with userBlockCaches := recordDelete c.userBlockCaches d } +
      estimateEntrySize e ≤ estimateObjectSize c := by
  have h := entriesObjSize_delete c.userBlockCaches d e hmem hnd
  have e1 : estimateObjectSize c =
      jsonField "followedUsers"
          (jsonArrSize (c.followedUsers.map jsonFollowedUserSize)) +
        jsonField "userBlockCaches" (entriesObjSize c.userBlockCaches) +
        jsonField "lastFullSync" (natDigits c.lastFullSync) +
        jsonField "currentUserDid" (jsonStrSize c.currentUserDid) + 5 :=
    jsonObjSize_four _ _ _ _
  have e2 : estimateObjectSize
      { c with userBlockCaches := recordDelete c.userBlockCaches d } =
      jsonField "followedUsers"
          (jsonArrSize (c.followedUsers.map jsonFollowedUserSize)) +
        jsonField "userBlockCaches"
          (entriesObjSize (recordDelete c.userBlockCaches d)) +
        jsonField "lastFullSync" (natDigits c.lastFullSync) +
        jsonField "currentUserDid" (jsonStrSize c.currentUserDid) + 5 :=
    jsonObjSize_four _ _ _ _
  have hf : ∀ v : Nat, jsonField "userBlockCaches" v =
      jsonStrSize "userBlockCaches" + 1 + v := fun v => rfl
  rw [e1, e2, hf, hf]
  omega

theorem recordGet_mem {α : Type} (m : List (String × α)) (k : String)
    (hk : k ∈ m.map Prod.fst) :
    ∃ v, recordGet m k = some v ∧ (k, v) ∈ m := by
  induction m with
  | nil => simp at hk
  | cons p rest ih =>
    by_cases hp : (p.1 == k) = true
    · refine ⟨p.2, ?_, ?_⟩
      · unfold recordGet
        rw [List.find?_cons_of_pos rest hp]
        rfl
      · have hpk : p.1 = k := by simpa using hp
        have hpe : (k, p.2) = p := by rw [← hpk]
        rw [hpe]
        exact List.mem_cons_self _ _
    · have hk' : k ∈ rest.map Prod.fst := by
        rw [List.map_cons] at hk
        rcases List.mem_cons.mp hk with h | h
        · exact absurd (by simp [h]) hp
        · exact h
      obtain ⟨v, hget, hmem⟩ := ih hk'
      refine ⟨v, ?_, List.mem_cons_of_mem p hmem⟩
      unfold recordGet at hget ⊢
      rw [List.find?_cons_of_neg rest hp]
      exact hget

theorem pruneLoop_removed_sublist :
    ∀ (l : List (String × Nat)) (c : BlockCacheData) (s : Int),
      (pruneLoop c l s).2.Sublist l := by
  intro l
  induction l with
  | nil => intro c s; exact List.Sublist.refl _
  | cons hd rest ih =>
    intro c s
    obtain ⟨did, ls⟩ := hd
    simp only [pruneLoop]
    split
    · exact List.nil_sublist _
    · exact List.Sublist.cons₂ (did, ls) (ih _ _)

theorem usersByAge_sorted (c : BlockCacheData) :
    List.Pairwise byAge (usersByAge c) :=
  List.sorted_insertionSort byAge _

theorem usersByAge_keys_perm (c : BlockCacheData) :
    ((usersByAge c).map Prod.fst).Perm (c.userBlockCaches.map Prod.fst) := by
  have h := (List.perm_insertionSort byAge
    (c.userBlockCaches.map (fun p => (p.1, p.2.lastSynced)))).map Prod.fst
  simpa [List.map_map, Function.comp] using h

/-- The size invariant of the removal loop: if the running `currentSize`
over-approximates the true serialized size, then after the loop either
the true size is within the ceiling or every entry has been removed. -/
theorem pruneLoop_size_spec :
    ∀ (l : List (String × Nat)) (c : BlockCacheData) (s : Int),
      (estimateObjectSize c : Int) ≤ s →
      (c.userBlockCaches.map Prod.fst).Nodup →
      (l.map Prod.fst).Perm (c.userBlockCaches.map Prod.fst) →
      estimateObjectSize (pruneLoop c l s).1 ≤ MAX_CACHE_SIZE_BYTES ∨
        (pruneLoop c l s).1.userBlockCaches = [] := by
  intro l
  induction l with
  | nil =>
    intro c s hs hnd hperm
    right
    have hkeys : c.userBlockCaches.map Prod.fst = [] :=
      (hperm.symm).eq_nil
    exact List.map_eq_nil_iff.mp hkeys
  | cons hd rest ih =>
    intro c s hs hnd hperm
    obtain ⟨did, ls⟩ := hd
    simp only [pruneLoop]
    split
    · rename_i hstop
      left
      have : (estimateObjectSize c : Int) ≤ (MAX_CACHE_SIZE_BYTES : Int) :=
        le_trans hs hstop
      exact_mod_cast this
    · rename_i hstop
      have hdidmem : did ∈ c.userBlockCaches.map Prod.fst :=
        hperm.subset (by simp)
      obtain ⟨e, hge, hmem⟩ := recordGet_mem c.userBlockCaches did hdidmem
      simp only [hge]
      have hsize := estimateObjectSize_delete c did e hmem hnd
      have hkeys' : ((recordDelete c.userBlockCaches did).map Prod.fst) =
          (c.userBlockCaches.map Prod.fst).filter (fun k => k != did) := by
        unfold recordDelete
        rw [List.filter_map]
        rfl
      have hnd2 : ((recordDelete c.userBlockCaches did).map Prod.fst).Nodup := by
        rw [hkeys']
        exact List.Nodup.filter _ hnd
      have hdidnotin : did ∉ rest.map Prod.fst := by
        have hkeysnodup : ((did, ls).1 :: rest.map Prod.fst).Nodup :=
          (hperm.symm).nodup hnd
        exact (List.nodup_cons.mp hkeysnodup).1
      have hperm2 : (rest.map Prod.fst).Perm
          ((recordDelete c.userBlockCaches did).map Prod.fst) := by
        rw [hkeys']
        have h1 : ((did :: rest.map Prod.fst).filter (fun k => k != did)).Perm
            ((c.userBlockCaches.map Prod.fst).filter (fun k => k != did)) :=
          List.Perm.filter _ (by simpa using hperm)
        have h2 : (did :: rest.map Prod.fst).filter (fun k => k != did) =
            rest.map Prod.fst := by
          rw [List.filter_cons]
          rw [if_neg (by simp)]
          exact List.filter_eq_self.mpr (fun k hk => by
            have : k ≠ did := fun hkd => hdidnotin (hkd ▸ hk)
            simpa using this)
        rw [← h2]
        exact h1
      refine ih _ _ ?_ hnd2 hperm2
      omega

/-- C3.  Quota pruning: for every cache with unique entry keys whose
estimated serialized size exceeds the 8MB ceiling, `pruneCache` removes
block-cache entries in non-decreasing `lastSynced` order, and after it
returns either the estimated serialized size of the resulting cache is
at most the ceiling or all `userBlockCaches` entries have been removed.
(The loop's running size subtracts each removed entry's own serialized
size, which under-counts the actual shrinkage — the quoted key, colon
and comma also vanish — so the tracked size over-approximates the true
size and the bound follows.) -/
theorem pruneCache_quota (c : BlockCacheData)
    (hnd : (c.userBlockCaches.map Prod.fst).Nodup)
    (_hover : MAX_CACHE_SIZE_BYTES < estimateObjectSize c) :
    ((pruneCacheRemoved c).map Prod.snd).Pairwise (· ≤ ·) ∧
    (estimateObjectSize (pruneCache c) ≤ MAX_CACHE_SIZE_BYTES ∨
      (pruneCache c).userBlockCaches = []) := by
  constructor
  · have hsub := pruneLoop_removed_sublist (usersByAge c) c
      (estimateObjectSize c : Int)
    have hpw := List.Pairwise.sublist hsub (usersByAge_sorted c)
    exact List.Pairwise.map Prod.snd (fun a b h => h) hpw
  · exact pruneLoop_size_spec (usersByAge c) c _ le_rfl hnd
      (usersByAge_keys_perm c)

/-- Witness for C3 at a one-entry cache holding a 7MB bit array. -/
theorem pruneCache_quota_witness :
    (wBigCache.userBlockCaches.map Prod.fst).Nodup ∧
    MAX_CACHE_SIZE_BYTES < estimateObjectSize wBigCache ∧
    (((pruneCacheRemoved wBigCache).map Prod.snd).Pairwise (· ≤ ·) ∧
      (estimateObjectSize (pruneCache wBigCache) ≤ MAX_CACHE_SIZE_BYTES ∨
        (pruneCache wBigCache).userBlockCaches = [])) := by
  have hnd : (wBigCache.userBlockCaches.map Prod.fst).Nodup := by
    simp [wBigCache]
  have hgen : ∀ bits : List Nat, bits.length = 7000000 →
      MAX_CACHE_SIZE_BYTES < estimateObjectSize
        { followedUsers := []
          userBlockCaches := [("did:big",
            { did := "did:big", handle := "big", displayName := none,
              avatar := none, pdsUrl := none,
              bloomFilter := { bits := bits, size := 56000000,
                               numHashes := 10, count := 1 },
              blockCount := 1, lastSynced := 5 })]
          lastFullSync := 0, currentUserDid := "did:me" } := by
    intro bits hlen
    simp only [estimateObjectSize, entriesObjSize, entryPairSize,
      estimateEntrySize, jsonBloomFilterSize, base64Length, hlen,
      List.map_cons, List.map_nil, List.sum_cons, List.sum_nil,
      List.length_cons, List.length_nil]
    decide
  have hover : MAX_CACHE_SIZE_BYTES < estimateObjectSize wBigCache :=
    hgen (List.replicate 7000000 0) (List.length_replicate _ _)
  exact ⟨hnd, hover, pruneCache_quota wBigCache hnd hover⟩

/-- C8.  Zero-block omission: for every environment and starting storage,
every entry of the block cache persisted by a sync pass either already
existed in the stored cache or has `blockCount ≥ 1` — an account with
zero fetched blocks never produces an entry.  In the concrete two-account
scenario (A blocks `did:t`, B blocks nothing, empty initial cache) the
persisted cache holds exactly one entry, keyed by A, with
`blockCount = 1`. -/
theorem performFullSync_zero_block_omission :
    (∀ (env : Env) (st : Storage),
      storageEntriesOk st (performFullSync env st)) ∧
    (performFullSync wEnv wStEmpty).blockCache = some wResultCache ∧
    wResultCache.userBlockCaches.map Prod.fst = ["did:a"] ∧
    wEntryA.blockCount = 1 := by
  refine ⟨performFullSync_entries_ok, ?_, ?_, ?_⟩ <;> decide

/-- Witness for C8: the general provenance property applied to the
scenario's written entry. -/
theorem performFullSync_zero_block_omission_witness :
    (performFullSync wEnv wStEmpty).blockCache = some wResultCache ∧
    ("did:a", wEntryA) ∈ wResultCache.userBlockCaches ∧
    entryOrNewOk wStEmpty ("did:a", wEntryA) :=
  ⟨by decide, by decide,
   performFullSync_zero_block_omission.1 wEnv wStEmpty wResultCache
     (by decide) ("did:a", wEntryA) (by decide)⟩

/-- C10.  Prune frame property: `pruneCache` leaves `followedUsers`,
`lastFullSync` and `currentUserDid` unchanged, and its `userBlockCaches`
is a sublist of the original — it only deletes entries, and every
surviving entry is identical (same key, same value, same relative order)
to its value before the call. -/
theorem pruneCache_frame (c : BlockCacheData) :
    (pruneCache c).followedUsers = c.followedUsers ∧
    (pruneCache c).lastFullSync = c.lastFullSync ∧
    (pruneCache c).currentUserDid = c.currentUserDid ∧
    (pruneCache c).userBlockCaches.Sublist c.userBlockCaches :=
  pruneLoop_frame_and_sublist (usersByAge c) c (estimateObjectSize c : Int)

end AskBeeves
